import Mathlib

/-!
# Verification of the logistics digital-twin core (`src/logistics_app.py`)

A shallow embedding of the simulation/evaluation/optimization core of the
packing-line digital twin, together with proofs of the behavioural claims
made about it.

Modelling conventions:

* All times and rates are exact rationals (`ℚ`); the Python floats are
  modelled exactly, since no claim depends on rounding of binary floats.
* Python's global `random` module is modelled as an explicit generator state
  (`RNG`) threaded through the computation.  `random.seed(seed)` becomes
  `randomSeed seed`, which discards the ambient state and derives a fresh
  state from the seed alone.  The value distributions of `random.expovariate`
  and `random.gauss` are stood in by deterministic draws from the generator
  stream with the same signs and parameter dependence (`expovariate lambd`
  has the sign of `1/lambd`; `gauss mu sigma = mu + sigma * z` with
  `z ∈ [-2, 2]`); no claim below depends on the numeric distribution of the
  draws, only on their determinism, sign, and parameter structure.
* The `simpy` cooperative-coroutine simulation is embedded as an explicit
  discrete-event machine: the pending events are the next arrival and one
  service completion per busy packer, processed in nondecreasing time order.
  simpy breaks ties between two events at the same instant by event id; the
  machine below fixes the tie-break "completions before arrivals", which is
  one admissible realisation of that order.
* Exceptions raised by Python (`ZeroDivisionError`, simpy's `ValueError`s)
  are modelled with `Except SimError`, raised at the same program points and
  in the same order as the Python run would raise them.
* The unbounded `while True` arrival loop is run on explicit fuel (one unit
  per processed event); a run that exhausts its fuel simply stops, like a
  run whose horizon has been reached.  Every claim proved below either holds
  for all fuel values or is witnessed at a fuel large enough for the horizon.
-/

set_option allowUnsafeReducibility true
attribute [local semireducible] Rat.add Rat.mul Rat.inv Rat.sub Rat.ofScientific

namespace Logistics

/-- State of Python's global `random` generator, stood in by a 32-bit linear
congruential generator.  Only determinism matters to the claims. -/
structure RNG where
  state : ℕ
deriving DecidableEq, Repr

/-- One draw from the global generator stream: a pseudo-random natural below
2^16 and the successor state. -/
def RNG.next (g : RNG) : ℕ × RNG :=
  let s := (g.state * 1103515245 + 12345) % 4294967296
  (s / 65536, ⟨s⟩)

/-- `random.seed(seed)`: the new global generator state is a function of the
seed alone; whatever state the generator held before is discarded. -/
def randomSeed (seed : ℕ) : RNG :=
  ⟨(seed * 2654435761 + 1013904223) % 4294967296⟩

/-- Stand-in for `random.random()`: a draw in `(0, 1]`. -/
def randUnit (g : RNG) : ℚ × RNG :=
  ((((g.next.1 % 100 : ℕ) : ℚ) + 1) / 100, g.next.2)

/-- Stand-in for `random.expovariate(lambd)` = `-log(1-U)/lambd`: a positive
draw divided by `lambd`, so the result is positive exactly when `lambd` is. -/
def expovariate (lambd : ℚ) (g : RNG) : ℚ × RNG :=
  ((randUnit g).1 / lambd, (randUnit g).2)

/-- Stand-in for `random.gauss(mu, sigma)` = `mu + sigma * Z`: the standard
draw `z` ranges over `[-2, 2]` in steps of `1/50`, so it takes both signs. -/
def gauss (mu sigma : ℚ) (g : RNG) : ℚ × RNG :=
  (mu + sigma * ((((g.next.1 % 201 : ℕ) : ℚ) - 100) / 50), g.next.2)

/-- The service-duration draw of `packing_process` (`src/logistics_app.py`
lines 38–39): a Gaussian draw with mean `packing_time_mean` and standard
deviation 20% of the mean, floored at 0.1 minutes. -/
def serviceTimeDraw (packing_time_mean : ℚ) (g : RNG) : ℚ × RNG :=
  (max (1/10) (gauss packing_time_mean (packing_time_mean * (2/10)) g).1,
   (gauss packing_time_mean (packing_time_mean * (2/10)) g).2)

/-- The discrete-event state of one simulation run: the pending events are
the next arrival of the `setup` loop and one completion per busy packer.
`waits` is the `wait_times` list the Python run appends to; `services` is an
observation trace recording every service-duration realisation drawn. -/
structure SimState where
  rng : RNG
  nextArrival : ℚ
  inService : List ℚ
  queue : List ℚ
  waits : List ℚ
  services : List ℚ
deriving DecidableEq, Repr

/-- The exceptions the Python run can raise, in the order the source hits
them: `60.0 / avg_orders_per_hour` with a zero rate raises
`ZeroDivisionError`; `env.run(until=t)` with `t ≤ 0` raises `ValueError`;
`simpy.Resource(env, capacity=c)` with `c ≤ 0` raises `ValueError`;
`env.timeout(d)` with `d < 0` raises `ValueError('Negative delay')`. -/
inductive SimError where
  | zeroDivisionError
  | invalidUntil
  | invalidCapacity
  | negativeDelay
deriving DecidableEq, Repr

/-- Minimum of a nonempty list of times (the earliest pending completion). -/
def listMin : List ℚ → Option ℚ
  | [] => none
  | x :: xs => some (xs.foldl min x)

/-- The timestamp of the next pending event. -/
def nextEventTime (s : SimState) : ℚ :=
  match listMin s.inService with
  | none => s.nextArrival
  | some tc => min tc s.nextArrival

/-- One arrival event of the `setup` loop at time `s.nextArrival`: the loop
draws the next interarrival gap (raising on a negative delay, which happens
exactly when the arrival rate is negative) and spawns `packing_process` for
the arriving job.  If a packer is free the job acquires it at once — a wait
of `now - arrival = t - t` is recorded and a service duration drawn —
otherwise the job joins the FIFO queue. -/
def arrivalStep (num_packers : ℕ) (arrival_interval packing_time_mean : ℚ)
    (s : SimState) : Except SimError SimState :=
  let t := s.nextArrival
  let gap := (expovariate (1 / arrival_interval) s.rng).1
  let g1 := (expovariate (1 / arrival_interval) s.rng).2
  if gap < 0 then .error .negativeDelay
  else if s.inService.length < num_packers then
    let svc := (serviceTimeDraw packing_time_mean g1).1
    let g2 := (serviceTimeDraw packing_time_mean g1).2
    .ok { rng := g2, nextArrival := t + gap,
          inService := (t + svc) :: s.inService,
          queue := s.queue,
          waits := s.waits ++ [t - t],
          services := s.services ++ [svc] }
  else
    .ok { rng := g1, nextArrival := t + gap,
          inService := s.inService,
          queue := s.queue ++ [t],
          waits := s.waits,
          services := s.services }

/-- One service-completion event at time `tc`: the packer is released; if a
job is queued it acquires the packer at once — its wait `tc - arrival` is
recorded and a service duration drawn (always ≥ 0.1, so simpy's negative-
delay check cannot fire here). -/
def completionStep (packing_time_mean tc : ℚ) (s : SimState) :
    Except SimError SimState :=
  match s.queue with
  | [] => .ok { s with inService := s.inService.erase tc }
  | a :: rest =>
    let svc := (serviceTimeDraw packing_time_mean s.rng).1
    let g1 := (serviceTimeDraw packing_time_mean s.rng).2
    .ok { rng := g1, nextArrival := s.nextArrival,
          inService := (tc + svc) :: (s.inService.erase tc),
          queue := rest,
          waits := s.waits ++ [tc - a],
          services := s.services ++ [svc] }

/-- Process the earliest pending event (completions before arrivals on a
tie). -/
def simStep (num_packers : ℕ) (arrival_interval packing_time_mean : ℚ)
    (s : SimState) : Except SimError SimState :=
  match listMin s.inService with
  | some tc =>
    if tc ≤ s.nextArrival then completionStep packing_time_mean tc s
    else arrivalStep num_packers arrival_interval packing_time_mean s
  | none => arrivalStep num_packers arrival_interval packing_time_mean s

/-- `env.run(until=horizon)`: process events while the earliest pending one
is strictly before the horizon (simpy schedules the until-event with urgent
priority, so events at exactly the horizon do not run). -/
def simLoop (num_packers : ℕ) (arrival_interval packing_time_mean horizon : ℚ) :
    ℕ → SimState → Except SimError SimState
  | 0, s => .ok s
  | fuel + 1, s =>
    if nextEventTime s < horizon then
      match simStep num_packers arrival_interval packing_time_mean s with
      | .ok s' => simLoop num_packers arrival_interval packing_time_mean horizon fuel s'
      | .error e => .error e
    else .ok s

/-- What a finished run returns: the recorded wait times (the Python
`wait_times` array), the observed service-duration realisations, and the
global generator state the run leaves behind. -/
structure SimResult where
  waits : List ℚ
  services : List ℚ
  rng : RNG
deriving DecidableEq, Repr

/-- `run_simulation` (`src/logistics_app.py` lines 48–56).  `g0` is the
ambient global `random` state at call time; `random.seed(seed)` discards it.
The checks mirror the Python run in order: the zero division in
`60.0 / avg_orders_per_hour`, then `env.run(until=sim_hours * 60)`'s check
that the until-time is positive, then `simpy.Resource`'s capacity check when
the `setup` process starts, then the first interarrival timeout (negative
exactly when the rate is negative). -/
def run_simulation (avg_orders_per_hour : ℚ) (num_packers : ℤ)
    (avg_packing_time : ℚ) (sim_hours : ℚ) (seed : ℕ) (fuel : ℕ) (g0 : RNG) :
    Except SimError SimResult :=
  let _ambient := g0
  let g := randomSeed seed
  if avg_orders_per_hour = 0 then .error .zeroDivisionError
  else
    let arrival_interval := 60 / avg_orders_per_hour
    if sim_hours * 60 ≤ 0 then .error .invalidUntil
    else if num_packers ≤ 0 then .error .invalidCapacity
    else
      let gap0 := (expovariate (1 / arrival_interval) g).1
      let g1 := (expovariate (1 / arrival_interval) g).2
      if gap0 < 0 then .error .negativeDelay
      else
        match simLoop num_packers.toNat arrival_interval avg_packing_time
            (sim_hours * 60) fuel ⟨g1, gap0, [], [], [], []⟩ with
        | .ok s => .ok ⟨s.waits, s.services, s.rng⟩
        | .error e => .error e

/-- Python's `int(...)` on a rational: truncation toward zero. -/
def pyInt (q : ℚ) : ℤ :=
  Int.tdiv q.num q.den

/-- `np.max` over a wait-time list (only ever applied to nonempty lists in
the source; 0 on the empty list). -/
def listMax : List ℚ → ℚ
  | [] => 0
  | x :: xs => xs.foldl max x

/-- The record `evaluate` returns (`src/logistics_app.py` lines 59–88). -/
structure EvalResult where
  total_orders : ℕ
  avg_wait : ℚ
  max_wait : ℚ
  delay_rate : ℚ
  late_orders : ℕ
  daily_loss : ℤ
  monthly_loss : ℤ
deriving DecidableEq, Repr

/-- `evaluate` (`src/logistics_app.py` lines 59–88): pure reduction of a
wait-time sample to metrics.  An empty sample short-circuits to all-zero
metrics; otherwise the late orders are the entries strictly above the SLA,
the delay rate is their percentage, the daily loss is
`int(late_count * loss_per_order_yen)` and the monthly loss multiplies it by
the workdays parameter (which defaults to 20, `int` on an integer product
being the identity). -/
def evaluate (wait_times : List ℚ) (sla_min : ℚ) (loss_per_order_yen : ℚ)
    (workdays : ℕ := 20) : EvalResult :=
  let total := wait_times.length
  if total = 0 then
    { total_orders := 0, avg_wait := 0, max_wait := 0, delay_rate := 0,
      late_orders := 0, daily_loss := 0, monthly_loss := 0 }
  else
    let late_count := (wait_times.filter (fun w => sla_min < w)).length
    { total_orders := total,
      avg_wait := wait_times.sum / total,
      max_wait := listMax wait_times,
      delay_rate := (late_count : ℚ) / total * 100,
      late_orders := late_count,
      daily_loss := pyInt ((late_count : ℚ) * loss_per_order_yen),
      monthly_loss := pyInt ((late_count : ℚ) * loss_per_order_yen) * workdays }

/-- The scan of `recommend_staff` (`src/logistics_app.py` lines 91–98),
structurally recursive on the number of staffing levels left to try.  At
each candidate level the simulator runs with the same seed and the same
ambient generator state, and `evaluate` is called without a workdays
argument, so the default of 20 applies. -/
def recommend_staff_scan (avg_orders_per_hour avg_packing_time sim_hours sla
    loss_per_order target_delay_rate : ℚ) (seed fuel : ℕ) (g : RNG) :
    ℕ → ℕ → Except SimError (Option (ℕ × EvalResult))
  | _staff, 0 => .ok none
  | staff, n + 1 =>
    match run_simulation avg_orders_per_hour (staff : ℤ) avg_packing_time
        sim_hours seed fuel g with
    | .error e => .error e
    | .ok r =>
      let m := evaluate r.waits sla loss_per_order
      if m.delay_rate ≤ target_delay_rate then .ok (some (staff, m))
      else recommend_staff_scan avg_orders_per_hour avg_packing_time sim_hours
          sla loss_per_order target_delay_rate seed fuel g (staff + 1) n

/-- `recommend_staff` (`src/logistics_app.py` lines 91–98): linear scan of
staffing levels from `min_staff` up to `max_staff` inclusive; the first
level whose delay rate meets the target is returned with its metrics, and
`none` models the Python `(None, None)` when no level qualifies. -/
def recommend_staff (avg_orders_per_hour avg_packing_time sim_hours sla
    loss_per_order target_delay_rate : ℚ) (min_staff : ℕ := 1)
    (max_staff : ℕ := 15) (seed : ℕ := 42) (fuel : ℕ := 1000) (g : RNG := ⟨0⟩) :
    Except SimError (Option (ℕ × EvalResult)) :=
  recommend_staff_scan avg_orders_per_hour avg_packing_time sim_hours sla
    loss_per_order target_delay_rate seed fuel g min_staff
    (max_staff + 1 - min_staff)

/-- The scan of `recommend_staff_by_maxwait` (`src/logistics_app.py` lines
100–107): like `recommend_staff_scan`, but the acceptance test is on the
realized maximum wait (`float(np.max(wt)) if len(wt) else 0.0`). -/
def recommend_staff_by_maxwait_scan (avg_orders_per_hour avg_packing_time
    sim_hours max_wait_limit : ℚ) (seed fuel : ℕ) (g : RNG) :
    ℕ → ℕ → Except SimError (Option (ℕ × ℚ))
  | _staff, 0 => .ok none
  | staff, n + 1 =>
    match run_simulation avg_orders_per_hour (staff : ℤ) avg_packing_time
        sim_hours seed fuel g with
    | .error e => .error e
    | .ok r =>
      let max_wait := if r.waits.length ≠ 0 then listMax r.waits else 0
      if max_wait ≤ max_wait_limit then .ok (some (staff, max_wait))
      else recommend_staff_by_maxwait_scan avg_orders_per_hour avg_packing_time
          sim_hours max_wait_limit seed fuel g (staff + 1) n

/-- `recommend_staff_by_maxwait` (`src/logistics_app.py` lines 100–107). -/
def recommend_staff_by_maxwait (avg_orders_per_hour avg_packing_time sim_hours
    max_wait_limit : ℚ) (min_staff : ℕ := 1) (max_staff : ℕ := 15)
    (seed : ℕ := 42) (fuel : ℕ := 1000) (g : RNG := ⟨0⟩) :
    Except SimError (Option (ℕ × ℚ)) :=
  recommend_staff_by_maxwait_scan avg_orders_per_hour avg_packing_time
    sim_hours max_wait_limit seed fuel g min_staff
    (max_staff + 1 - min_staff)

/-- Floor of a rational (the denominator is positive, so floor division of
the numerator by the denominator is the floor). -/
def ratFloor (q : ℚ) : ℤ :=
  Int.fdiv q.num q.den

/-- Python 3's `round` on a rational: round half to even. -/
def pyRound (q : ℚ) : ℤ :=
  let f := ratFloor q
  if q - f < 1/2 then f
  else if (1/2 : ℚ) < q - f then f + 1
  else if f % 2 = 0 then f else f + 1

/-- The scenario derivation of the `scenarios` loop
(`src/logistics_app.py` lines 210–212):
`orders = max(1, int(round(avg_orders_per_hour * o_mult)))`,
`ptime = max(0.1, float(avg_packing_time * t_mult))`, and the staffing is
the baseline value carried unchanged in every scenario tuple. -/
def deriveScenario (avg_orders_per_hour : ℤ) (avg_packing_time : ℚ)
    (staff : ℕ) (orders_mult time_mult : ℚ) : ℤ × ℚ × ℕ :=
  (max 1 (pyRound ((avg_orders_per_hour : ℚ) * orders_mult)),
   max (1/10) (avg_packing_time * time_mult),
   staff)

/-- Modelled from the spec: the service process supports two selectable
variants as a configuration option — exponential with mean equal to the
configured mean service duration, or Gaussian with a 20% standard deviation
floored at 0.1.  The file in `src/` hard-codes the Gaussian variant; the
exponential variant and the selector live in near-duplicate files of the
repository that are not under `src/`. -/
inductive ServiceVariant where
  | exponential
  | gaussian
deriving DecidableEq, Repr

/-- Modelled from the spec: the service-duration draw under a selected
variant.  `expovariate (1 / mean)` is the exponential draw with mean `mean`;
the Gaussian branch is the computation of `packing_process` in `src/`. -/
def serviceDraw : ServiceVariant → ℚ → RNG → ℚ × RNG
  | .exponential, mean, g => expovariate (1 / mean) g
  | .gaussian, mean, g =>
    (max (1/10) (gauss mean (mean * (2/10)) g).1,
     (gauss mean (mean * (2/10)) g).2)

/-- The result the simulator produced at a given staffing level (junk value
on an error, which the positivity lemmas below rule out). -/
def simResultAt (avg_orders_per_hour avg_packing_time sim_hours : ℚ)
    (seed fuel : ℕ) (g : RNG) (staff : ℕ) : SimResult :=
  (run_simulation avg_orders_per_hour (staff : ℤ) avg_packing_time sim_hours
    seed fuel g).toOption.getD ⟨[], [], ⟨0⟩⟩

/-- The metrics of the sample at a given staffing level, with the default
workdays of 20 that `recommend_staff` uses. -/
def evalAt (avg_orders_per_hour avg_packing_time sim_hours sla
    loss_per_order : ℚ) (seed fuel : ℕ) (g : RNG) (staff : ℕ) : EvalResult :=
  evaluate (simResultAt avg_orders_per_hour avg_packing_time sim_hours seed
    fuel g staff).waits sla loss_per_order

/-- The realized maximum wait at a given staffing level, as
`recommend_staff_by_maxwait` computes it. -/
def maxwaitAt (avg_orders_per_hour avg_packing_time sim_hours : ℚ)
    (seed fuel : ℕ) (g : RNG) (staff : ℕ) : ℚ :=
  if (simResultAt avg_orders_per_hour avg_packing_time sim_hours seed fuel g
      staff).waits.length ≠ 0 then
    listMax (simResultAt avg_orders_per_hour avg_packing_time sim_hours seed
      fuel g staff).waits
  else 0

/-! ## Helper lemmas -/

theorem foldl_min_mem (xs : List ℚ) (x : ℚ) :
    xs.foldl min x = x ∨ xs.foldl min x ∈ xs := by
  induction xs generalizing x with
  | nil => left; rfl
  | cons y ys ih =>
    simp only [List.foldl_cons]
    rcases ih (min x y) with h | h
    · rw [h]
      rcases le_total x y with hxy | hxy
      · left
        exact min_eq_left hxy
      · right
        simp [min_eq_right hxy]
    · right
      simp [h]

theorem foldl_min_le (xs : List ℚ) (x : ℚ) :
    xs.foldl min x ≤ x ∧ ∀ y ∈ xs, xs.foldl min x ≤ y := by
  induction xs generalizing x with
  | nil => exact ⟨le_refl x, by simp⟩
  | cons y ys ih =>
    obtain ⟨h1, h2⟩ := ih (min x y)
    refine ⟨le_trans h1 (min_le_left x y), ?_⟩
    intro z hz
    rcases List.mem_cons.mp hz with rfl | hz
    · exact le_trans h1 (min_le_right x z)
    · exact h2 z hz

theorem listMin_mem {l : List ℚ} {m : ℚ} (h : listMin l = some m) : m ∈ l := by
  match l with
  | [] => simp [listMin] at h
  | x :: xs =>
    simp only [listMin, Option.some.injEq] at h
    subst h
    rcases foldl_min_mem xs x with h | h
    · simp [h]
    · simp [h]

theorem listMin_le {l : List ℚ} {m : ℚ} (h : listMin l = some m) :
    ∀ x ∈ l, m ≤ x := by
  match l with
  | [] => simp [listMin] at h
  | x :: xs =>
    simp only [listMin, Option.some.injEq] at h
    subst h
    intro z hz
    obtain ⟨h1, h2⟩ := foldl_min_le xs x
    rcases List.mem_cons.mp hz with rfl | hz
    · exact h1
    · exact h2 z hz

theorem serviceTimeDraw_ge (mean : ℚ) (g : RNG) :
    1/10 ≤ (serviceTimeDraw mean g).1 :=
  le_max_left _ _

theorem expovariate_pos {lambd : ℚ} (g : RNG) (h : 0 < lambd) :
    0 < (expovariate lambd g).1 := by
  have hu : 0 < (randUnit g).1 := by
    simp only [randUnit]
    positivity
  exact div_pos hu h

/-- The metrics on the empty sample: all fields zero, for every SLA, loss
amount, and workdays multiplier. -/
theorem evaluate_nil (sla loss : ℚ) (wd : ℕ) :
    evaluate [] sla loss wd =
      { total_orders := 0, avg_wait := 0, max_wait := 0, delay_rate := 0,
        late_orders := 0, daily_loss := 0, monthly_loss := 0 } :=
  rfl

/-- In every `evaluate` record the monthly loss is the daily loss times the
workdays multiplier. -/
theorem evaluate_monthly (w : List ℚ) (sla loss : ℚ) (wd : ℕ) :
    (evaluate w sla loss wd).monthly_loss =
      (evaluate w sla loss wd).daily_loss * wd := by
  by_cases h : w.length = 0 <;> simp [evaluate, h]

/-- Python's `int` is the identity on natural-number-valued rationals. -/
theorem pyInt_natCast (n : ℕ) : pyInt ((n : ℕ) : ℚ) = n := by
  simp [pyInt, Rat.num_natCast, Rat.den_natCast, Int.tdiv_one]

theorem listMin_eq_none {l : List ℚ} (h : listMin l = none) : l = [] := by
  cases l with
  | nil => rfl
  | cons x xs => simp [listMin] at h

/-! ## The run invariant: waits are nonnegative, service draws are ≥ 0.1 -/

/-- The inductive invariant of the discrete-event machine: every recorded
wait is nonnegative, every drawn service duration is at least 0.1, and every
queued job arrived no later than any pending event (so the wait it will
record on acquiring a packer is nonnegative). -/
def SimInv (s : SimState) : Prop :=
  (∀ w ∈ s.waits, 0 ≤ w) ∧ (∀ d ∈ s.services, 1/10 ≤ d) ∧
  (∀ a ∈ s.queue, a ≤ s.nextArrival ∧ ∀ tc ∈ s.inService, a ≤ tc)

theorem arrivalStep_inv {c : ℕ} {i m : ℚ} {s s' : SimState} (hinv : SimInv s)
    (hS : ∀ tc ∈ s.inService, s.nextArrival ≤ tc)
    (h : arrivalStep c i m s = .ok s') : SimInv s' := by
  obtain ⟨hw, hd, hq⟩ := hinv
  simp only [arrivalStep] at h
  split at h
  · exact absurd h (by simp)
  next hgap =>
    have hgap' : (0:ℚ) ≤ (expovariate (1 / i) s.rng).1 := not_lt.mp hgap
    split at h
    · injection h with h
      subst h
      refine ⟨?_, ?_, ?_⟩
      · intro w hwmem
        rcases List.mem_append.mp hwmem with hwmem | hwmem
        · exact hw w hwmem
        · simp only [List.mem_singleton] at hwmem
          simp [hwmem]
      · intro d hdmem
        rcases List.mem_append.mp hdmem with hdmem | hdmem
        · exact hd d hdmem
        · simp only [List.mem_singleton] at hdmem
          subst hdmem
          exact serviceTimeDraw_ge m _
      · intro a hamem
        obtain ⟨haN, haS⟩ := hq a hamem
        refine ⟨le_trans haN (le_add_of_nonneg_right hgap'), ?_⟩
        intro tc htc
        rcases List.mem_cons.mp htc with rfl | htc
        · calc a ≤ s.nextArrival := haN
            _ ≤ s.nextArrival + (serviceTimeDraw m _).1 :=
              le_add_of_nonneg_right (le_trans (by norm_num) (serviceTimeDraw_ge m _))
        · exact haS tc htc
    · injection h with h
      subst h
      refine ⟨hw, hd, ?_⟩
      intro a hamem
      rcases List.mem_append.mp hamem with hamem | hamem
      · obtain ⟨haN, haS⟩ := hq a hamem
        exact ⟨le_trans haN (le_add_of_nonneg_right hgap'), haS⟩
      · simp only [List.mem_singleton] at hamem
        subst hamem
        exact ⟨le_add_of_nonneg_right hgap', hS⟩

theorem completionStep_inv {m tc : ℚ} {s s' : SimState} (hinv : SimInv s)
    (hmem : tc ∈ s.inService) (h : completionStep m tc s = .ok s') :
    SimInv s' := by
  obtain ⟨hw, hd, hq⟩ := hinv
  match hqe : s.queue with
  | [] =>
    rw [completionStep, hqe] at h
    injection h with h
    subst h
    exact ⟨hw, hd, by simp⟩
  | a :: rest =>
    rw [completionStep, hqe] at h
    injection h with h
    subst h
    have hhead := hq a (by simp [hqe])
    refine ⟨?_, ?_, ?_⟩
    · intro w hwmem
      rcases List.mem_append.mp hwmem with hwmem | hwmem
      · exact hw w hwmem
      · simp only [List.mem_singleton] at hwmem
        subst hwmem
        exact sub_nonneg.mpr (hhead.2 tc hmem)
    · intro d hdmem
      rcases List.mem_append.mp hdmem with hdmem | hdmem
      · exact hd d hdmem
      · simp only [List.mem_singleton] at hdmem
        subst hdmem
        exact serviceTimeDraw_ge m _
    · intro a' ha'mem
      obtain ⟨ha'N, ha'S⟩ := hq a' (by simp [hqe, ha'mem])
      refine ⟨ha'N, ?_⟩
      intro tc' htc'
      rcases List.mem_cons.mp htc' with rfl | htc'
      · calc a' ≤ tc := ha'S tc hmem
          _ ≤ tc + (serviceTimeDraw m s.rng).1 :=
            le_add_of_nonneg_right (le_trans (by norm_num) (serviceTimeDraw_ge m s.rng))
      · exact ha'S tc' (List.erase_subset _ _ htc')

theorem simStep_inv {c : ℕ} {i m : ℚ} {s s' : SimState} (hinv : SimInv s)
    (h : simStep c i m s = .ok s') : SimInv s' := by
  match hmin : listMin s.inService with
  | none =>
    simp only [simStep, hmin] at h
    have hnil := listMin_eq_none hmin
    exact arrivalStep_inv hinv (by simp [hnil]) h
  | some tc =>
    simp only [simStep, hmin] at h
    split at h
    · exact completionStep_inv hinv (listMin_mem hmin) h
    next hlt =>
      have : ∀ tc' ∈ s.inService, s.nextArrival ≤ tc' := fun tc' htc' =>
        le_trans (le_of_lt (not_le.mp hlt)) (listMin_le hmin tc' htc')
      exact arrivalStep_inv hinv this h

theorem simLoop_inv {c : ℕ} {i m T : ℚ} {s s' : SimState} {fuel : ℕ}
    (hinv : SimInv s) (h : simLoop c i m T fuel s = .ok s') : SimInv s' := by
  induction fuel generalizing s with
  | zero =>
    rw [simLoop] at h
    injection h with h
    subst h
    exact hinv
  | succ n ih =>
    rw [simLoop] at h
    split at h
    · match hstep : simStep c i m s with
      | .ok s'' =>
        rw [hstep] at h
        exact ih (simStep_inv hinv hstep) h
      | .error e =>
        rw [hstep] at h
        exact absurd h (by simp)
    · injection h with h
      subst h
      exact hinv

/-! ## The simulation cannot raise once its inputs pass the checks -/

theorem arrivalStep_ok {c : ℕ} {i m : ℚ} (s : SimState) (hi : 0 < i) :
    ∃ s', arrivalStep c i m s = .ok s' := by
  have hgap : 0 < (expovariate (1 / i) s.rng).1 :=
    expovariate_pos s.rng (by positivity)
  rw [arrivalStep]
  simp only [not_lt.mpr (le_of_lt hgap), if_false]
  split <;> exact ⟨_, rfl⟩

theorem completionStep_ok (m tc : ℚ) (s : SimState) :
    ∃ s', completionStep m tc s = .ok s' := by
  rw [completionStep]
  split <;> exact ⟨_, rfl⟩

theorem simStep_ok {c : ℕ} {i m : ℚ} (s : SimState) (hi : 0 < i) :
    ∃ s', simStep c i m s = .ok s' := by
  match hmin : listMin s.inService with
  | none =>
    simp only [simStep, hmin]
    exact arrivalStep_ok s hi
  | some tc =>
    simp only [simStep, hmin]
    split
    · exact completionStep_ok m tc s
    · exact arrivalStep_ok s hi

theorem simLoop_ok {c : ℕ} {i m T : ℚ} (fuel : ℕ) (s : SimState) (hi : 0 < i) :
    ∃ s', simLoop c i m T fuel s = .ok s' := by
  induction fuel generalizing s with
  | zero => exact ⟨s, rfl⟩
  | succ n ih =>
    rw [simLoop]
    split
    · obtain ⟨s'', hstep⟩ := simStep_ok s hi (c := c) (m := m)
      rw [hstep]
      exact ih s''
    · exact ⟨s, rfl⟩

theorem run_simulation_ok {rate mean hours : ℚ} {packers : ℤ}
    {seed fuel : ℕ} {g : RNG} (hr : 0 < rate) (hh : 0 < hours)
    (hp : 0 < packers) :
    ∃ r, run_simulation rate packers mean hours seed fuel g = .ok r := by
  have hi : 0 < 60 / rate := by positivity
  have hgap : 0 < (expovariate (1 / (60 / rate)) (randomSeed seed)).1 :=
    expovariate_pos _ (by positivity)
  rw [run_simulation]
  simp only [ne_of_gt hr, if_false, not_le.mpr (by positivity : (0:ℚ) < hours * 60),
    if_false, not_le.mpr hp, if_false, not_lt.mpr (le_of_lt hgap), if_false]
  obtain ⟨s', hloop⟩ := simLoop_ok fuel _ hi (c := packers.toNat) (m := mean)
    (T := hours * 60)
  rw [hloop]
  exact ⟨_, rfl⟩

/-- Under positive rate, horizon and staffing, the simulator returns exactly
the `simResultAt` projection. -/
theorem run_simulation_eq {rate mean hours : ℚ} {seed fuel : ℕ} {g : RNG}
    (staff : ℕ) (hr : 0 < rate) (hh : 0 < hours) (hs : 0 < staff) :
    run_simulation rate (staff : ℤ) mean hours seed fuel g =
      .ok (simResultAt rate mean hours seed fuel g staff) := by
  obtain ⟨r, hrr⟩ := @run_simulation_ok rate mean hours (staff : ℤ) seed fuel
    g hr hh (Int.natCast_pos.mpr hs)
  rw [hrr, simResultAt, hrr]
  rfl

/-- Every successful run satisfies the invariant: its recorded waits are all
nonnegative and every service-duration realisation it drew is ≥ 0.1. -/
theorem run_simulation_inv {rate mean hours : ℚ} {packers : ℤ}
    {seed fuel : ℕ} {g : RNG} {r : SimResult}
    (h : run_simulation rate packers mean hours seed fuel g = .ok r) :
    (∀ w ∈ r.waits, 0 ≤ w) ∧ ∀ d ∈ r.services, 1/10 ≤ d := by
  simp only [run_simulation] at h
  split at h
  · exact absurd h (by simp)
  split at h
  · exact absurd h (by simp)
  split at h
  · exact absurd h (by simp)
  split at h
  · exact absurd h (by simp)
  match hloop : simLoop packers.toNat (60 / rate) mean (hours * 60) fuel
      ⟨(expovariate (1 / (60 / rate)) (randomSeed seed)).2,
       (expovariate (1 / (60 / rate)) (randomSeed seed)).1, [], [], [], []⟩ with
  | .ok s =>
    rw [hloop] at h
    injection h with h
    subst h
    have hinv : SimInv ⟨(expovariate (1 / (60 / rate)) (randomSeed seed)).2,
        (expovariate (1 / (60 / rate)) (randomSeed seed)).1, [], [], [], []⟩ :=
      ⟨by simp, by simp, by simp⟩
    obtain ⟨hw, hd, _⟩ := simLoop_inv hinv hloop
    exact ⟨hw, hd⟩
  | .error e =>
    rw [hloop] at h
    exact absurd h (by simp)

/-! ## The error paths of `run_simulation` -/

theorem expovariate_neg {lambd : ℚ} (g : RNG) (h : lambd < 0) :
    (expovariate lambd g).1 < 0 := by
  have hu : 0 < (randUnit g).1 := by
    simp only [randUnit]
    positivity
  exact div_neg_of_pos_of_neg hu h

theorem run_simulation_rate_zero {mean hours : ℚ} {packers : ℤ}
    {seed fuel : ℕ} {g : RNG} :
    run_simulation 0 packers mean hours seed fuel g =
      .error .zeroDivisionError := by
  simp [run_simulation]

theorem run_simulation_until {rate mean hours : ℚ} {packers : ℤ}
    {seed fuel : ℕ} {g : RNG} (hr : rate ≠ 0) (hh : hours ≤ 0) :
    run_simulation rate packers mean hours seed fuel g =
      .error .invalidUntil := by
  have h60 : hours * 60 ≤ 0 :=
    mul_nonpos_iff.mpr (Or.inr ⟨hh, by norm_num⟩)
  simp [run_simulation, hr, h60]

theorem run_simulation_capacity {rate mean hours : ℚ} {packers : ℤ}
    {seed fuel : ℕ} {g : RNG} (hr : rate ≠ 0) (hh : 0 < hours)
    (hp : packers ≤ 0) :
    run_simulation rate packers mean hours seed fuel g =
      .error .invalidCapacity := by
  have h60 : ¬ hours * 60 ≤ 0 := not_le.mpr (by positivity)
  simp [run_simulation, hr, h60, hp]

theorem run_simulation_neg_rate {rate mean hours : ℚ} {packers : ℤ}
    {seed fuel : ℕ} {g : RNG} (hr : rate < 0) (hh : 0 < hours)
    (hp : 0 < packers) :
    run_simulation rate packers mean hours seed fuel g =
      .error .negativeDelay := by
  have h60 : ¬ hours * 60 ≤ 0 := not_le.mpr (by positivity)
  have hgap : (expovariate (rate / 60) (randomSeed seed)).1 < 0 :=
    expovariate_neg _ (div_neg_of_neg_of_pos hr (by norm_num))
  simp [run_simulation, ne_of_lt hr, h60, not_le.mpr hp, hgap]

/-! ## Characterisation of the staffing scans -/

theorem recommend_staff_scan_some_iff {rate ptime hours sla loss target : ℚ}
    {seed fuel : ℕ} {g : RNG} (hr : 0 < rate) (hh : 0 < hours) :
    ∀ (n staff : ℕ), 1 ≤ staff → ∀ (s : ℕ) (m : EvalResult),
    (recommend_staff_scan rate ptime hours sla loss target seed fuel g staff n
        = .ok (some (s, m)) ↔
      staff ≤ s ∧ s < staff + n ∧
      m = evalAt rate ptime hours sla loss seed fuel g s ∧
      (evalAt rate ptime hours sla loss seed fuel g s).delay_rate ≤ target ∧
      ∀ t, staff ≤ t → t < s →
        target < (evalAt rate ptime hours sla loss seed fuel g t).delay_rate) := by
  intro n
  induction n with
  | zero =>
    intro staff h1 s m
    simp only [recommend_staff_scan]
    constructor
    · intro h
      exact absurd h (by simp)
    · rintro ⟨hs1, hs2, -⟩
      omega
  | succ n ih =>
    intro staff h1 s m
    have hrun := @run_simulation_eq rate ptime hours seed fuel g staff hr hh
      (by omega)
    simp only [recommend_staff_scan, hrun]
    split
    next hpos =>
      constructor
      · intro h
        simp only [Except.ok.injEq, Option.some.injEq, Prod.mk.injEq] at h
        obtain ⟨rfl, rfl⟩ := h
        refine ⟨le_refl _, by omega, rfl, hpos, ?_⟩
        intro t ht1 ht2
        omega
      · rintro ⟨hs1, hs2, rfl, hd, hmin⟩
        have hss : s = staff := by
          by_contra hne
          exact absurd hpos (not_le.mpr (hmin staff (le_refl _) (by omega)))
        subst hss
        rfl
    next hneg =>
      rw [ih (staff + 1) (by omega) s m]
      constructor
      · rintro ⟨hs1, hs2, hm, hd, hmin⟩
        refine ⟨by omega, by omega, hm, hd, ?_⟩
        intro t ht1 ht2
        rcases Nat.eq_or_lt_of_le ht1 with rfl | ht1'
        · exact not_le.mp hneg
        · exact hmin t (by omega) ht2
      · rintro ⟨hs1, hs2, hm, hd, hmin⟩
        have hss : s ≠ staff := by
          rintro rfl
          exact hneg hd
        refine ⟨by omega, by omega, hm, hd, ?_⟩
        intro t ht1 ht2
        exact hmin t (by omega) ht2

theorem recommend_staff_scan_none_iff {rate ptime hours sla loss target : ℚ}
    {seed fuel : ℕ} {g : RNG} (hr : 0 < rate) (hh : 0 < hours) :
    ∀ (n staff : ℕ), 1 ≤ staff →
    (recommend_staff_scan rate ptime hours sla loss target seed fuel g staff n
        = .ok none ↔
      ∀ t, staff ≤ t → t < staff + n →
        target < (evalAt rate ptime hours sla loss seed fuel g t).delay_rate) := by
  intro n
  induction n with
  | zero =>
    intro staff h1
    simp only [recommend_staff_scan]
    constructor
    · intro _ t ht1 ht2
      omega
    · intro _
      trivial
  | succ n ih =>
    intro staff h1
    have hrun := @run_simulation_eq rate ptime hours seed fuel g staff hr hh
      (by omega)
    simp only [recommend_staff_scan, hrun]
    split
    next hpos =>
      constructor
      · intro h
        exact absurd h (by simp)
      · intro hall
        exact absurd hpos (not_le.mpr (hall staff (le_refl _) (by omega)))
    next hneg =>
      rw [ih (staff + 1) (by omega)]
      constructor
      · intro hall t ht1 ht2
        rcases Nat.eq_or_lt_of_le ht1 with rfl | ht1'
        · exact not_le.mp hneg
        · exact hall t (by omega) (by omega)
      · intro hall t ht1 ht2
        exact hall t (by omega) (by omega)

/-- Any metrics record a successful `recommend_staff` scan returns came from
`evaluate` called with the default workdays of 20. -/
theorem recommend_staff_scan_shape {rate ptime hours sla loss target : ℚ}
    {seed fuel : ℕ} {g : RNG} :
    ∀ (n staff s : ℕ) (m : EvalResult),
    recommend_staff_scan rate ptime hours sla loss target seed fuel g staff n
        = .ok (some (s, m)) →
    ∃ w, m = evaluate w sla loss 20 := by
  intro n
  induction n with
  | zero =>
    intro staff s m h
    exact absurd h (by simp [recommend_staff_scan])
  | succ n ih =>
    intro staff s m h
    match hrun : run_simulation rate (staff : ℤ) ptime hours seed fuel g with
    | .error e =>
      rw [recommend_staff_scan, hrun] at h
      exact absurd h (by simp)
    | .ok r =>
      rw [recommend_staff_scan, hrun] at h
      simp only at h
      split at h
      · simp only [Except.ok.injEq, Option.some.injEq, Prod.mk.injEq] at h
        exact ⟨r.waits, h.2.symm⟩
      · exact ih (staff + 1) s m h

/-- Folding the max-wait expression of the scan body into `maxwaitAt`. -/
theorem maxwaitAt_fold (rate ptime hours : ℚ) (seed fuel : ℕ) (g : RNG)
    (staff : ℕ) :
    (if (simResultAt rate ptime hours seed fuel g staff).waits.length ≠ 0 then
        listMax (simResultAt rate ptime hours seed fuel g staff).waits
      else 0) = maxwaitAt rate ptime hours seed fuel g staff :=
  rfl

theorem recommend_staff_by_maxwait_scan_some_iff {rate ptime hours limit : ℚ}
    {seed fuel : ℕ} {g : RNG} (hr : 0 < rate) (hh : 0 < hours) :
    ∀ (n staff : ℕ), 1 ≤ staff → ∀ (s : ℕ) (mw : ℚ),
    (recommend_staff_by_maxwait_scan rate ptime hours limit seed fuel g staff n
        = .ok (some (s, mw)) ↔
      staff ≤ s ∧ s < staff + n ∧
      mw = maxwaitAt rate ptime hours seed fuel g s ∧
      maxwaitAt rate ptime hours seed fuel g s ≤ limit ∧
      ∀ t, staff ≤ t → t < s →
        limit < maxwaitAt rate ptime hours seed fuel g t) := by
  intro n
  induction n with
  | zero =>
    intro staff h1 s mw
    simp only [recommend_staff_by_maxwait_scan]
    constructor
    · intro h
      exact absurd h (by simp)
    · rintro ⟨hs1, hs2, -⟩
      omega
  | succ n ih =>
    intro staff h1 s mw
    have hrun := @run_simulation_eq rate ptime hours seed fuel g staff hr hh
      (by omega)
    simp only [recommend_staff_by_maxwait_scan, hrun, maxwaitAt_fold]
    split
    next hpos =>
      constructor
      · intro h
        simp only [Except.ok.injEq, Option.some.injEq, Prod.mk.injEq] at h
        obtain ⟨rfl, rfl⟩ := h
        refine ⟨le_refl _, by omega, rfl, hpos, ?_⟩
        intro t ht1 ht2
        omega
      · rintro ⟨hs1, hs2, rfl, hd, hmin⟩
        have hss : s = staff := by
          by_contra hne
          exact absurd hpos (not_le.mpr (hmin staff (le_refl _) (by omega)))
        subst hss
        rfl
    next hneg =>
      rw [ih (staff + 1) (by omega) s mw]
      constructor
      · rintro ⟨hs1, hs2, hm, hd, hmin⟩
        refine ⟨by omega, by omega, hm, hd, ?_⟩
        intro t ht1 ht2
        rcases Nat.eq_or_lt_of_le ht1 with rfl | ht1'
        · exact not_le.mp hneg
        · exact hmin t (by omega) ht2
      · rintro ⟨hs1, hs2, hm, hd, hmin⟩
        have hss : s ≠ staff := by
          rintro rfl
          exact hneg hd
        refine ⟨by omega, by omega, hm, hd, ?_⟩
        intro t ht1 ht2
        exact hmin t (by omega) ht2

theorem recommend_staff_by_maxwait_scan_none_iff {rate ptime hours limit : ℚ}
    {seed fuel : ℕ} {g : RNG} (hr : 0 < rate) (hh : 0 < hours) :
    ∀ (n staff : ℕ), 1 ≤ staff →
    (recommend_staff_by_maxwait_scan rate ptime hours limit seed fuel g staff n
        = .ok none ↔
      ∀ t, staff ≤ t → t < staff + n →
        limit < maxwaitAt rate ptime hours seed fuel g t) := by
  intro n
  induction n with
  | zero =>
    intro staff h1
    simp only [recommend_staff_by_maxwait_scan]
    constructor
    · intro _ t ht1 ht2
      omega
    · intro _
      trivial
  | succ n ih =>
    intro staff h1
    have hrun := @run_simulation_eq rate ptime hours seed fuel g staff hr hh
      (by omega)
    simp only [recommend_staff_by_maxwait_scan, hrun, maxwaitAt_fold]
    split
    next hpos =>
      constructor
      · intro h
        exact absurd h (by simp)
      · intro hall
        exact absurd hpos (not_le.mpr (hall staff (le_refl _) (by omega)))
    next hneg =>
      rw [ih (staff + 1) (by omega)]
      constructor
      · intro hall t ht1 ht2
        rcases Nat.eq_or_lt_of_le ht1 with rfl | ht1'
        · exact not_le.mp hneg
        · exact hall t (by omega) (by omega)
      · intro hall t ht1 ht2
        exact hall t (by omega) (by omega)

end Logistics

deriving instance DecidableEq for Except

namespace Logistics

/-! ## The claims -/

/-- C1: for every non-empty wait-time sample the evaluator returns total
count = sample length, late count = number of entries strictly greater than
the SLA threshold, delay rate = late count / total count × 100, daily loss =
late count × loss-per-late-order, and monthly loss = daily loss × the
workdays multiplier; in particular on [2, 4, 6, 12] with SLA = 10 it yields
late count 1, delay rate 25%, daily loss 1 × loss per order, and monthly
loss = daily loss × workdays.  (The loss per late order is a whole number of
yen, as the application supplies it.) -/
theorem C1_evaluate_nonempty (ws : List ℚ) (sla : ℚ) (L wd : ℕ)
    (hne : ws ≠ []) :
    (evaluate ws sla (L : ℚ) wd).total_orders = ws.length ∧
    (evaluate ws sla (L : ℚ) wd).late_orders =
      (ws.filter (fun w => sla < w)).length ∧
    (evaluate ws sla (L : ℚ) wd).delay_rate =
      ((ws.filter (fun w => sla < w)).length : ℚ) / ws.length * 100 ∧
    (evaluate ws sla (L : ℚ) wd).daily_loss =
      ((ws.filter (fun w => sla < w)).length * L : ℕ) ∧
    (evaluate ws sla (L : ℚ) wd).monthly_loss =
      (evaluate ws sla (L : ℚ) wd).daily_loss * wd ∧
    (evaluate [2, 4, 6, 12] 10 (L : ℚ) wd).late_orders = 1 ∧
    (evaluate [2, 4, 6, 12] 10 (L : ℚ) wd).delay_rate = 25 ∧
    (evaluate [2, 4, 6, 12] 10 (L : ℚ) wd).daily_loss = (L : ℤ) ∧
    (evaluate [2, 4, 6, 12] 10 (L : ℚ) wd).monthly_loss = (L : ℤ) * wd := by
  have hlen : ws.length ≠ 0 := fun h => hne (List.length_eq_zero.mp h)
  have hcast : ((ws.filter (fun w => sla < w)).length : ℚ) * (L : ℚ) =
      (((ws.filter (fun w => sla < w)).length * L : ℕ) : ℚ) := by
    push_cast
    ring
  have hc4 : ([2, 4, 6, 12] : List ℚ).length ≠ 0 := by decide
  have hfil : (([2, 4, 6, 12] : List ℚ).filter (fun w => (10:ℚ) < w)).length
      = 1 := by decide
  refine ⟨by simp [evaluate, hlen], by simp [evaluate, hlen], ?_, ?_, ?_,
    ?_, ?_, ?_, ?_⟩
  · simp [evaluate, hlen]
  · simp only [evaluate, hlen, if_false]
    rw [hcast, pyInt_natCast]
  · exact evaluate_monthly ws sla (L : ℚ) wd
  · simp [evaluate, hc4, hfil]
  · simp only [evaluate, hc4, if_false, hfil]
    norm_num
  · simp only [evaluate, hc4, if_false, hfil]
    rw [show ((1 : ℕ) : ℚ) * (L : ℚ) = ((1 * L : ℕ) : ℚ) by push_cast; ring,
      pyInt_natCast]
    simp
  · simp only [evaluate, hc4, if_false, hfil]
    rw [show ((1 : ℕ) : ℚ) * (L : ℚ) = ((1 * L : ℕ) : ℚ) by push_cast; ring,
      pyInt_natCast]
    simp

/-- C1 witness: the concrete sample [2, 4, 6, 12] with SLA 10, 500 yen per
late order and 20 workdays has delay rate 25%. -/
theorem C1_evaluate_nonempty_witness :
    (evaluate [2, 4, 6, 12] 10 ((500 : ℕ) : ℚ) 20).delay_rate = 25 :=
  (C1_evaluate_nonempty [2, 4, 6, 12] 10 500 20 (by decide)).2.2.2.2.2.2.1

/-- C2: `recommend_staff` scans staffing levels 1..15 in increasing order,
running the simulator with the same seed (and the same ambient generator
state) at every level; it returns the first level whose delay rate is ≤ the
target together with the `evaluate` record achieved at that level, and when
no level in 1..15 qualifies it returns the distinct `none` outcome, which no
successful level-15 result can equal. -/
theorem C2_recommend_staff_first_level (rate ptime hours sla loss target : ℚ)
    (seed fuel : ℕ) (g : RNG) (hr : 0 < rate) (hh : 0 < hours) :
    (∀ (s : ℕ) (m : EvalResult),
      recommend_staff rate ptime hours sla loss target 1 15 seed fuel g
          = .ok (some (s, m)) ↔
        1 ≤ s ∧ s ≤ 15 ∧
        m = evalAt rate ptime hours sla loss seed fuel g s ∧
        (evalAt rate ptime hours sla loss seed fuel g s).delay_rate ≤ target ∧
        ∀ t, 1 ≤ t → t < s →
          target < (evalAt rate ptime hours sla loss seed fuel g t).delay_rate) ∧
    (recommend_staff rate ptime hours sla loss target 1 15 seed fuel g
        = .ok none ↔
      ∀ t, 1 ≤ t → t ≤ 15 →
        target < (evalAt rate ptime hours sla loss seed fuel g t).delay_rate) ∧
    (∀ m : EvalResult,
      (Except.ok none : Except SimError (Option (ℕ × EvalResult)))
        ≠ .ok (some (15, m))) := by
  refine ⟨?_, ?_, ?_⟩
  · intro s m
    have base := @recommend_staff_scan_some_iff rate ptime hours sla loss
      target seed fuel g hr hh 15 1 (le_refl 1) s m
    exact base.trans (by
      constructor
      · rintro ⟨a, b, c, d, e⟩
        exact ⟨a, by omega, c, d, e⟩
      · rintro ⟨a, b, c, d, e⟩
        exact ⟨a, by omega, c, d, e⟩)
  · have base := @recommend_staff_scan_none_iff rate ptime hours sla loss
      target seed fuel g hr hh 15 1 (le_refl 1)
    exact base.trans (by
      constructor
      · intro hall t ht1 ht2
        exact hall t ht1 (by omega)
      · intro hall t ht1 ht2
        exact hall t ht1 (by omega))
  · intro m h
    exact absurd h (by simp)

/-- C2 witness: with 60 orders/hour, a 2.5-minute mean, a one-minute horizon
and a generous 100% target, the optimizer accepts staffing level 1 with the
metrics the simulator produced there. -/
theorem C2_recommend_staff_first_level_witness :
    recommend_staff 60 (5/2) (1/60) 10 500 100 1 15 42 100 ⟨0⟩
      = .ok (some (1, evalAt 60 (5/2) (1/60) 10 500 42 100 ⟨0⟩ 1)) :=
  ((C2_recommend_staff_first_level 60 (5/2) (1/60) 10 500 100 42 100 ⟨0⟩
      (by norm_num) (by norm_num)).1 1
    (evalAt 60 (5/2) (1/60) 10 500 42 100 ⟨0⟩ 1)).mpr
    ⟨le_refl 1, by norm_num, rfl, by decide,
     fun t ht1 ht2 => absurd (Nat.lt_of_le_of_lt ht1 ht2) (Nat.lt_irrefl 1)⟩

/-- C3: `recommend_staff_by_maxwait` scans staffing levels 1..15 with the
same seed at each level and returns the first level whose realized maximum
wait is ≤ the target, paired with that realized maximum wait; when no level
in 1..15 qualifies it returns the reportable `none` outcome instead of an
error. -/
theorem C3_recommend_staff_by_maxwait_first_level (rate ptime hours limit : ℚ)
    (seed fuel : ℕ) (g : RNG) (hr : 0 < rate) (hh : 0 < hours) :
    (∀ (s : ℕ) (mw : ℚ),
      recommend_staff_by_maxwait rate ptime hours limit 1 15 seed fuel g
          = .ok (some (s, mw)) ↔
        1 ≤ s ∧ s ≤ 15 ∧
        mw = maxwaitAt rate ptime hours seed fuel g s ∧
        maxwaitAt rate ptime hours seed fuel g s ≤ limit ∧
        ∀ t, 1 ≤ t → t < s →
          limit < maxwaitAt rate ptime hours seed fuel g t) ∧
    (recommend_staff_by_maxwait rate ptime hours limit 1 15 seed fuel g
        = .ok none ↔
      ∀ t, 1 ≤ t → t ≤ 15 →
        limit < maxwaitAt rate ptime hours seed fuel g t) := by
  constructor
  · intro s mw
    have base := @recommend_staff_by_maxwait_scan_some_iff rate ptime hours
      limit seed fuel g hr hh 15 1 (le_refl 1) s mw
    exact base.trans (by
      constructor
      · rintro ⟨a, b, c, d, e⟩
        exact ⟨a, by omega, c, d, e⟩
      · rintro ⟨a, b, c, d, e⟩
        exact ⟨a, by omega, c, d, e⟩)
  · have base := @recommend_staff_by_maxwait_scan_none_iff rate ptime hours
      limit seed fuel g hr hh 15 1 (le_refl 1)
    exact base.trans (by
      constructor
      · intro hall t ht1 ht2
        exact hall t ht1 (by omega)
      · intro hall t ht1 ht2
        exact hall t ht1 (by omega))

/-- C3 witness: with a permissive 1000-minute deadline the max-wait
optimizer accepts staffing level 1, paired with the realized maximum wait at
that level. -/
theorem C3_recommend_staff_by_maxwait_first_level_witness :
    recommend_staff_by_maxwait 60 (5/2) (1/60) 1000 1 15 42 100 ⟨0⟩
      = .ok (some (1, maxwaitAt 60 (5/2) (1/60) 42 100 ⟨0⟩ 1)) :=
  ((C3_recommend_staff_by_maxwait_first_level 60 (5/2) (1/60) 1000 42 100 ⟨0⟩
      (by norm_num) (by norm_num)).1 1
    (maxwaitAt 60 (5/2) (1/60) 42 100 ⟨0⟩ 1)).mpr
    ⟨le_refl 1, by norm_num, rfl, by decide,
     fun t ht1 ht2 => absurd (Nat.lt_of_le_of_lt ht1 ht2) (Nat.lt_irrefl 1)⟩

/-- C4 (amended): non-positive arrival rate, staff capacity or horizon abort
the run with an error before any wait is recorded — a `ZeroDivisionError`
for a zero rate, simpy's until-check for a non-positive horizon, simpy's
capacity check for non-positive staffing, and a negative-delay error for a
negative rate — but there is no field-identifying validation layer, and a
non-positive mean service duration is not rejected at all: with positive
rate, staffing and horizon the run succeeds for every mean, the Gaussian
draw being floored at 0.1. -/
theorem C4_amended_validation (rate mean hours : ℚ) (packers : ℤ)
    (seed fuel : ℕ) (g : RNG) :
    (rate = 0 → run_simulation rate packers mean hours seed fuel g
      = .error .zeroDivisionError) ∧
    (rate ≠ 0 → hours ≤ 0 → run_simulation rate packers mean hours seed fuel g
      = .error .invalidUntil) ∧
    (rate ≠ 0 → 0 < hours → packers ≤ 0 →
      run_simulation rate packers mean hours seed fuel g
        = .error .invalidCapacity) ∧
    (rate < 0 → 0 < hours → 0 < packers →
      run_simulation rate packers mean hours seed fuel g
        = .error .negativeDelay) ∧
    (0 < rate → 0 < hours → 0 < packers →
      ∃ r, run_simulation rate packers mean hours seed fuel g = .ok r) := by
  refine ⟨?_, ?_, ?_, ?_, ?_⟩
  · rintro rfl
    exact run_simulation_rate_zero
  · intro hr hh
    exact run_simulation_until hr hh
  · intro hr hh hp
    exact run_simulation_capacity hr hh hp
  · intro hr hh hp
    exact run_simulation_neg_rate hr hh hp
  · intro hr hh hp
    exact run_simulation_ok hr hh hp

/-- C4 counterexample: a non-positive mean service duration (−1 minute) with
otherwise valid inputs does not fail fast — the simulator runs and produces
a non-empty wait-time sample, every service draw floored to 0.1. -/
theorem C4_counterexample :
    run_simulation 60 3 (-1) (1/30) 42 100 ⟨0⟩ =
      .ok ⟨[0, 0, 0, 0, 0, 0], [1/10, 1/10, 1/10, 1/10, 1/10, 1/10],
           ⟨235982418⟩⟩ := by
  decide

/-- C5: the engine is deterministic given the seed — for a fixed
configuration (arrival rate, staff count, mean service duration, horizon,
seed and fuel) two independent invocations, from arbitrary and possibly
different ambient global generator states, return identical results, wait-
time samples included, because `random.seed(seed)` derives the generator
state from the seed alone. -/
theorem C5_run_simulation_deterministic (rate mean hours : ℚ) (packers : ℤ)
    (seed fuel : ℕ) (g g' : RNG) :
    run_simulation rate packers mean hours seed fuel g
      = run_simulation rate packers mean hours seed fuel g' :=
  rfl

/-- C6: the empty wait-time sample evaluates to all-zero metrics — total,
mean wait, max wait, delay rate, late count and both losses — for every SLA
threshold, loss amount and workdays multiplier, with no division error. -/
theorem C6_evaluate_empty (sla loss : ℚ) (wd : ℕ) :
    evaluate [] sla loss wd =
      { total_orders := 0, avg_wait := 0, max_wait := 0, delay_rate := 0,
        late_orders := 0, daily_loss := 0, monthly_loss := 0 } :=
  rfl

/-- C7: every wait time in a successful simulator run is ≥ 0, and every
service-duration realisation the run drew is ≥ 0.1 (hence strictly
positive), because the Gaussian draw is floored at 0.1. -/
theorem C7_nonneg_waits_floored_services (rate mean hours : ℚ) (packers : ℤ)
    (seed fuel : ℕ) (g : RNG) (r : SimResult)
    (h : run_simulation rate packers mean hours seed fuel g = .ok r) :
    (∀ w ∈ r.waits, 0 ≤ w) ∧ ∀ d ∈ r.services, 1/10 ≤ d :=
  run_simulation_inv h

/-- C7 witness: the run at 60 orders/hour, one packer, one-minute horizon
records the wait sample [0] and drew the single service duration 82/25. -/
theorem C7_nonneg_waits_floored_services_witness :
    (∀ w ∈ ([0] : List ℚ), 0 ≤ w) ∧ ∀ d ∈ ([82/25] : List ℚ), 1/10 ≤ d :=
  C7_nonneg_waits_floored_services 60 (5/2) (1/60) 1 42 100 ⟨0⟩
    ⟨[0], [82/25], ⟨691848229⟩⟩ (by decide)

/-- C8: scenario derivation holds staffing fixed at the baseline, clamps the
derived orders-per-hour at no less than 1 and the derived mean service time
at no less than 0.1 minutes, and otherwise returns round(base rate ×
arrival multiplier) orders per hour and base mean × service-time multiplier
minutes; in particular multiplier 1.5 on 60/hr derives 90/hr and multiplier
1.1 on 2.5 minutes derives 2.75 minutes. -/
theorem C8_scenario_derivation (base : ℤ) (ptime : ℚ) (staff : ℕ)
    (omult tmult : ℚ) :
    (deriveScenario base ptime staff omult tmult).2.2 = staff ∧
    1 ≤ (deriveScenario base ptime staff omult tmult).1 ∧
    (1/10 : ℚ) ≤ (deriveScenario base ptime staff omult tmult).2.1 ∧
    (1 ≤ pyRound ((base : ℚ) * omult) →
      (deriveScenario base ptime staff omult tmult).1
        = pyRound ((base : ℚ) * omult)) ∧
    ((1/10 : ℚ) ≤ ptime * tmult →
      (deriveScenario base ptime staff omult tmult).2.1 = ptime * tmult) ∧
    deriveScenario 60 (5/2) staff (3/2) (11/10) = (90, 11/4, staff) := by
  have h1 : max 1 (pyRound (((60 : ℤ) : ℚ) * (3/2))) = 90 := by decide
  have h2 : max (1/10 : ℚ) ((5/2) * (11/10)) = 11/4 := by decide
  exact ⟨rfl, le_max_left 1 _, le_max_left (1/10 : ℚ) _,
    fun h => max_eq_right h, fun h => max_eq_right h,
    by simp only [deriveScenario, h1, h2]⟩

/-- C9 (modelled from the spec): the service process offers two selectable
variants — exponential with rate parameter the reciprocal of the configured
mean (so the draw's scale is the mean itself), and Gaussian with mean the
configured mean, standard deviation 20% of the mean and a floor of 0.1 —
and the Gaussian variant is exactly the service draw hard-coded in
`src/logistics_app.py`. -/
theorem C9_service_variants (mean : ℚ) (g : RNG) :
    serviceDraw ServiceVariant.gaussian mean g = serviceTimeDraw mean g ∧
    serviceDraw ServiceVariant.exponential mean g
      = expovariate (1 / mean) g ∧
    (serviceDraw ServiceVariant.gaussian mean g).1
      = max (1/10) (gauss mean (mean * (2/10)) g).1 :=
  ⟨rfl, rfl, rfl⟩

/-- C10: the metrics record of every successful `recommend_staff` outcome
was computed with the default workdays multiplier of 20 — the optimizer
forwards no caller-supplied workdays — so its monthly loss is its daily
loss × 20 whatever workdays value the rest of the run uses. -/
theorem C10_recommend_staff_default_workdays (rate ptime hours sla loss
    target : ℚ) (min_staff max_staff seed fuel : ℕ) (g : RNG) (s : ℕ)
    (m : EvalResult)
    (h : recommend_staff rate ptime hours sla loss target min_staff max_staff
      seed fuel g = .ok (some (s, m))) :
    m.monthly_loss = m.daily_loss * 20 := by
  obtain ⟨w, rfl⟩ := recommend_staff_scan_shape
    (max_staff + 1 - min_staff) min_staff s m h
  exact evaluate_monthly w sla loss 20

/-- C10 witness: the accepted level-1 metrics of the concrete run have
monthly loss equal to 20 × the daily loss. -/
theorem C10_recommend_staff_default_workdays_witness :
    (evalAt 60 (5/2) (1/60) 10 500 42 100 ⟨0⟩ 1).monthly_loss
      = (evalAt 60 (5/2) (1/60) 10 500 42 100 ⟨0⟩ 1).daily_loss * 20 :=
  C10_recommend_staff_default_workdays 60 (5/2) (1/60) 10 500 100 1 15 42 100
    ⟨0⟩ 1 (evalAt 60 (5/2) (1/60) 10 500 42 100 ⟨0⟩ 1) (by decide)

end Logistics
